import Mathlib

/-!
Verification development for the Video-Looper application (`src/app.py`).

The program is a Streamlit app that trims a user-selected time range out of
an uploaded video and concatenates the trimmed clip N times, using several
ffmpeg invocations with stream copy. This file gives a shallow embedding of
the pure logic of `app.py`:

* the timecode model (`sec_to_timecode`, `timecode_to_sec`),
* the duration probe (`get_duration_seconds_via_ffmpeg`, a regex scan),
* the session-state clamp/reset step,
* the `apply_tc` handler logic,
* the remux/loop operations (`extract_clip_stream_copy`,
  `loop_video_stream_copy_concat_demuxer`, `loop_video_stream_copy_ts_fallback`,
  `loop_video_no_reencode`) and the `process` (Create looped video) handler,
  modelled as pure functions from an external-tool oracle (`Runner`) to a
  result together with a trace of external effects (`Event`).

Python floats are modelled as rationals (`ℚ`); Python strings as `List Char`.
Python `int(...)`/`float(...)` conversions are modelled for ASCII decimal
forms with an optional sign and decimal point (exponent notation, `inf`,
`nan`, unicode digits and surrounding whitespace inside a segment are not
modelled; no claim depends on them).
-/

set_option maxRecDepth 4000

deriving instance DecidableEq for Except

/-- Strings of the Python program are modelled as lists of characters. -/
abbrev Str := List Char

/-- ASCII decimal digit test, as used by `int()`/`float()` on ASCII input. -/
def isDigitC (c : Char) : Bool := 48 ≤ c.toNat && c.toNat ≤ 57

/-- Whitespace characters removed by Python `str.strip()` (ASCII subset),
also the characters matched by the regex class `\s` on ASCII text. -/
def isSpace (c : Char) : Bool :=
  c = ' ' || c = '\t' || c = '\n' || c = '\r' || c = '\x0b' || c = '\x0c'

/-- Python `str.strip()` on ASCII text: drop whitespace from both ends. -/
def strip (l : Str) : Str :=
  ((l.dropWhile isSpace).reverse.dropWhile isSpace).reverse

/-- Python `s.split(sep)` for a single-character separator: splitting an
empty string yields `[[]]`, like Python `"".split(":") = [""]`. -/
def splitOnChar (sep : Char) : Str → List Str
  | [] => [[]]
  | c :: cs =>
    if c = sep then [] :: splitOnChar sep cs
    else
      match splitOnChar sep cs with
      | [] => [[c]]
      | t :: ts => (c :: t) :: ts

/-- Numeric value of a list of ASCII digits (most significant first). -/
def natVal (l : Str) : Nat := l.foldl (fun a c => a * 10 + (c.toNat - 48)) 0

/-- Fuel-driven decimal rendering of a natural number (auxiliary). -/
def natDigitsAux (fuel n : Nat) : Str :=
  match fuel with
  | 0 => []
  | fuel + 1 =>
    if n < 10 then [Char.ofNat (48 + n)]
    else natDigitsAux fuel (n / 10) ++ [Char.ofNat (48 + n % 10)]

/-- Decimal digit string of a natural number, e.g. `natDigits 120 = "120"`,
`natDigits 0 = "0"` (as Python `"%d"` formatting produces). -/
def natDigits (n : Nat) : Str := natDigitsAux (n + 1) n

/-- Left zero-padding to a minimum width, as Python `"%02d"`/`f"{x:02d}"`. -/
def padZero (w : Nat) (l : Str) : Str := List.replicate (w - l.length) '0' ++ l

/-- Python `int(s)` on an unsigned ASCII digit string (fails on empty or
non-digit input, accepts leading zeros). -/
def parseNat (l : Str) : Option Nat :=
  if l = [] then none
  else if l.all isDigitC then some (natVal l) else none

/-- Python `int(s)`: optional sign followed by digits. -/
def parseInt (l : Str) : Option Int :=
  match l with
  | [] => none
  | c :: rest =>
    if c = '-' then (parseNat rest).map (fun n => -(n : Int))
    else if c = '+' then (parseNat rest).map (fun n => (n : Int))
    else (parseNat l).map (fun n => (n : Int))

/-- Python `float(s)` on an unsigned decimal form: `digits`, `digits.`,
`.digits` or `digits.digits`. -/
def parseUnsignedFloat (l : Str) : Option ℚ :=
  match splitOnChar '.' l with
  | [a] => (parseNat a).map (fun n => (n : ℚ))
  | [a, b] =>
    if a = [] && b = [] then none
    else if a.all isDigitC && b.all isDigitC then
      some ((natVal a : ℚ) + (natVal b : ℚ) / 10 ^ b.length)
    else none
  | _ => none

/-- Python `float(s)`: optional sign followed by an unsigned decimal form. -/
def parseFloat (l : Str) : Option ℚ :=
  match l with
  | [] => none
  | c :: rest =>
    if c = '-' then (parseUnsignedFloat rest).map (fun q => -q)
    else if c = '+' then parseUnsignedFloat rest
    else parseUnsignedFloat (c :: rest)

/-- Embeds `timecode_to_sec` (app.py lines 36-57): strip the input, reject
empty input, split on `:`; one segment is fractional seconds, two segments
are minutes and seconds, three segments are hours, minutes and seconds; any
other shape raises "Invalid timecode format". A failing `int()`/`float()`
conversion raises a ValueError, modelled by the conversion error branches. -/
def timecode_to_sec (tc : Str) : Except Str ℚ :=
  let s := strip tc
  if s = [] then .error ("Empty timecode").toList
  else
    match splitOnChar ':' s with
    | [p0] =>
      match parseFloat p0 with
      | some v => .ok v
      | none => .error ("could not convert string to float").toList
    | [p0, p1] =>
      match parseInt p0, parseFloat p1 with
      | some mm, some ss => .ok ((mm : ℚ) * 60 + ss)
      | _, _ => .error ("invalid literal").toList
    | [p0, p1, p2] =>
      match parseInt p0, parseInt p1, parseFloat p2 with
      | some hh, some mm, some ss => .ok ((hh : ℚ) * 3600 + (mm : ℚ) * 60 + ss)
      | _, _, _ => .error ("invalid literal").toList
    | _ => .error ("Invalid timecode format").toList

/-- Python float modulo `a % b` for `b > 0` (result in `[0, b)`). -/
def fmod (a b : ℚ) : ℚ := a - b * (⌊a / b⌋ : ℚ)

/-- Rendering step of `sec_to_timecode`: hours and minutes zero-padded to
two digits, then the seconds field `f"{s:06.3f}"` rendered from its integer
part and its three rounded decimals (for seconds below 100 the `06.3f`
format is exactly a two-digit zero-padded integer part, a dot and three
decimals). -/
def renderTimecode (h m ssInt ssFrac : Nat) : Str :=
  padZero 2 (natDigits h) ++ (':' :: (padZero 2 (natDigits m) ++ (':' ::
    (padZero 2 (natDigits ssInt) ++ ('.' :: padZero 3 (natDigits ssFrac))))))

/-- Embeds `sec_to_timecode` (app.py lines 27-33): clamp negatives to zero,
split into hours `t // 3600`, minutes `(t % 3600) // 60` and seconds
`t % 60`, and format as `HH:MM:SS.mmm` where the seconds are rounded to
three decimals by the `f"{s:06.3f}"` format. -/
def sec_to_timecode (t : ℚ) : Str :=
  let t' := if t < 0 then 0 else t
  let h : ℕ := (⌊t' / 3600⌋).toNat
  let m : ℕ := (⌊fmod t' 3600 / 60⌋).toNat
  let milli : ℕ := (round (fmod t' 60 * 1000)).toNat
  renderTimecode h m (milli / 1000) (milli % 1000)

/-- Result of one external-tool invocation: `(returncode, stdout, stderr)`,
as returned by the subprocess helper (app.py lines 17-20). -/
structure CmdResult where
  rc : Int
  out : Str
  err : Str

/-- The external media tool as an oracle: maps an argument list to the
invocation result. The tool binary path itself (app.py line 12-14) is an
opaque constant. -/
abbrev Runner := List Str → CmdResult

/-- Path of the ffmpeg binary (opaque; provided by imageio-ffmpeg). -/
def ffmpeg_exe : Str := "ffmpeg".toList

/-- Observable side effects of the remux functions: writing a file (the
concat manifest), invoking the external tool, and deleting a file. -/
inductive Event
  | write (path : Str) (content : Str)
  | run (cmd : List Str)
  | unlink (path : Str)
deriving DecidableEq

/-- Python `err.strip() or default`: an all-whitespace diagnostic falls back
to the fixed message. -/
def errOr (e dflt : Str) : Str := if e = [] then dflt else e

/-- Greedy ASCII match of the regex `Duration:\s*(\d+):(\d+):(\d+(?:\.\d+)?)`
anchored at the head of the text; yields `(hh, mm, ss)` on success. -/
def matchDurationAt (l : Str) : Option (Nat × Nat × ℚ) :=
  match l.dropPrefix? ("Duration:").toList with
  | none => none
  | some r1 =>
    let r2 := r1.dropWhile isSpace
    let d1 := r2.takeWhile isDigitC
    let r3 := r2.dropWhile isDigitC
    if d1 = [] then none
    else
      match r3 with
      | ':' :: r4 =>
        let d2 := r4.takeWhile isDigitC
        let r5 := r4.dropWhile isDigitC
        if d2 = [] then none
        else
          match r5 with
          | ':' :: r6 =>
            let d3 := r6.takeWhile isDigitC
            let r7 := r6.dropWhile isDigitC
            if d3 = [] then none
            else
              let frac : ℚ :=
                match r7 with
                | '.' :: r8 =>
                  let d4 := r8.takeWhile isDigitC
                  if d4 = [] then 0 else (natVal d4 : ℚ) / 10 ^ d4.length
                | _ => 0
              some (natVal d1, natVal d2, (natVal d3 : ℚ) + frac)
          | _ => none
      | _ => none

/-- `re.search`: try the pattern at every position, leftmost match first. -/
def findDuration : Str → Option (Nat × Nat × ℚ)
  | [] => none
  | c :: rest =>
    match matchDurationAt (c :: rest) with
    | some v => some v
    | none => findDuration rest

/-- Embeds `get_duration_seconds_via_ffmpeg` (app.py lines 60-77): run the
tool in diagnostics mode, scan `stdout + "\n" + stderr` for the first
`Duration: HH:MM:SS.ff` marker and convert it to seconds `hh*3600 + mm*60
+ ss`; the returncode of the probe invocation is never inspected. A missing
marker raises a RuntimeError. -/
def get_duration_seconds_via_ffmpeg (probe : CmdResult) : Except Str ℚ :=
  let text := probe.out ++ '\n' :: probe.err
  match findDuration text with
  | none =>
    .error ("Could not read video duration (ffmpeg did not report Duration).").toList
  | some (hh, mm, ss) => .ok ((hh : ℚ) * 3600 + (mm : ℚ) * 60 + ss)

/-- Embeds the session-state clamp/reset step (app.py lines 279-284): each
stored endpoint is clamped into `[0, duration]`; if the clamped pair is
degenerate (`end ≤ start`) the selection resets to the full range. -/
def clamp_reset (duration rs re : ℚ) : ℚ × ℚ :=
  let rs' := max 0 (min rs duration)
  let re' := max 0 (min re duration)
  if re' ≤ rs' then (0, duration) else (rs', re')

/-- Embeds the `apply_tc` handler core (app.py lines 306-318): parse both
timecode fields, clamp each value into `[0, duration]`, reject a
non-increasing clamped pair, otherwise store the clamped pair. -/
def apply_tc_update (duration : ℚ) (start_tc end_tc : Str) : Except Str (ℚ × ℚ) :=
  match timecode_to_sec start_tc, timecode_to_sec end_tc with
  | .ok s, .ok e =>
    let s' := max 0 (min s duration)
    let e' := max 0 (min e duration)
    if e' ≤ s' then .error ("End time must be greater than start time.").toList
    else .ok (s', e')
  | .error m, _ => .error m
  | .ok _, .error m => .error m

/-- Python `f"{x:.6f}"` rendering of a nonnegative rounded value
(auxiliary). -/
def fmt6core (n : Nat) : Str :=
  natDigits (n / 1000000) ++ '.' :: padZero 6 (natDigits (n % 1000000))

/-- Python `f"{x:.6f}"`: the value rounded to six decimals. -/
def fmt6 (x : ℚ) : Str :=
  if x < 0 then '-' :: fmt6core (round (-x * 1000000)).toNat
  else fmt6core (round (x * 1000000)).toNat

/-- Argument list of the trim invocation (app.py lines 92-114). -/
def extract_cmd (in_path out_path : Str) (start_s dur : ℚ) : List Str :=
  [ffmpeg_exe, "-y".toList, "-hide_banner".toList, "-loglevel".toList,
    "error".toList, "-ss".toList, fmt6 start_s, "-i".toList, in_path,
    "-t".toList, fmt6 dur, "-c".toList, "copy".toList, "-movflags".toList,
    "+faststart".toList, "-avoid_negative_ts".toList, "make_zero".toList,
    out_path]

/-- Embeds `extract_clip_stream_copy` (app.py lines 80-117): reject
`end ≤ start`, otherwise invoke the tool once with seek `start` and
duration `end - start`; a non-zero exit becomes a RuntimeError carrying the
stripped stderr text (or a fixed fallback message). -/
def extract_clip_stream_copy (runner : Runner) (in_path out_path : Str)
    (start_s end_s : ℚ) : Except Str Unit × List Event :=
  if end_s ≤ start_s then
    (.error ("End time must be greater than start time.").toList, [])
  else
    let cmd := extract_cmd in_path out_path start_s (end_s - start_s)
    let r := runner cmd
    if r.rc ≠ 0 then
      (.error (errOr (strip r.err) ("ffmpeg clip extraction failed.").toList),
        [.run cmd])
    else (.ok (), [.run cmd])

/-- Python `Path(p).with_suffix(".concat.txt")` on the final path
component: drop a trailing `.ext` (a dot at position 0 of the name is not a
suffix) and append `.concat.txt`. -/
def stripLastDot (l : Str) : Str :=
  match l.reverse.dropWhile (fun c => c ≠ '.') with
  | [] => l
  | _ :: rest => if rest = [] then l else rest.reverse

/-- Manifest path `Path(out_path).with_suffix(".concat.txt")`. -/
def with_suffix_concat_txt (p : Str) : Str :=
  let rname := p.reverse.takeWhile (fun c => c ≠ '/')
  let rdir := p.reverse.dropWhile (fun c => c ≠ '/')
  rdir.reverse ++ stripLastDot rname.reverse ++ (".concat.txt").toList

/-- Backslash-to-forward-slash normalization of the resolved input path
(app.py line 130). -/
def normSlashes (l : Str) : Str := l.map (fun c => if c = '\\' then '/' else c)

/-- The ASCII apostrophe quoting the path inside the concat manifest. -/
def quoteC : Char := Char.ofNat 39

/-- One manifest line, `file '<path>'` plus the trailing newline. -/
def manifestLine (p : Str) : Str :=
  ("file ").toList ++ quoteC :: (p ++ [quoteC, '\n'])

/-- A manifest line without its terminating newline: `file '<path>'`. -/
def manifestLineCore (p : Str) : Str :=
  ("file ").toList ++ quoteC :: (p ++ [quoteC])

/-- Argument list of the Tier A concat-demuxer invocation (app.py lines
136-153). -/
def concat_cmd (list_file out_path : Str) : List Str :=
  [ffmpeg_exe, "-y".toList, "-hide_banner".toList, "-loglevel".toList,
    "error".toList, "-f".toList, "concat".toList, "-safe".toList,
    "0".toList, "-i".toList, list_file, "-c".toList, "copy".toList,
    "-movflags".toList, "+faststart".toList, out_path]

/-- Embeds `loop_video_stream_copy_concat_demuxer` (app.py lines 120-163),
Tier A: reject `loops < 1` before any side effect; otherwise write a
manifest repeating the resolved input path `loops` times, invoke the tool
on it, then delete the manifest (before the exit status is inspected, so on
success and failure alike); a non-zero exit becomes a RuntimeError. The
filesystem resolution `Path(in_path).resolve()` is an oracle `resolve`. -/
def loop_video_stream_copy_concat_demuxer (runner : Runner)
    (resolve : Str → Str) (in_path out_path : Str) (loops : Int) :
    Except Str Unit × List Event :=
  if loops < 1 then (.error ("loops must be >= 1").toList, [])
  else
    let list_file := with_suffix_concat_txt out_path
    let in_abs_norm := normSlashes (resolve in_path)
    let content := (List.replicate loops.toNat (manifestLine in_abs_norm)).flatten
    let cmd := concat_cmd list_file out_path
    let r := runner cmd
    let evs := [Event.write list_file content, Event.run cmd,
      Event.unlink list_file]
    if r.rc ≠ 0 then
      (.error (errOr (strip r.err) ("ffmpeg concat demuxer failed.").toList), evs)
    else (.ok (), evs)

/-- Argument list of the Tier B remux-to-transport-stream invocation
(app.py lines 178-193). -/
def ts_remux_cmd (in_path ts_path : Str) : List Str :=
  [ffmpeg_exe, "-y".toList, "-hide_banner".toList, "-loglevel".toList,
    "error".toList, "-i".toList, in_path, "-c".toList, "copy".toList,
    "-bsf:v".toList, "h264_mp4toannexb".toList, "-f".toList,
    "mpegts".toList, ts_path]

/-- Argument list of the Tier B concatenation invocation (app.py lines
200-215). -/
def ts_concat_cmd (concat_input out_path : Str) : List Str :=
  [ffmpeg_exe, "-y".toList, "-hide_banner".toList, "-loglevel".toList,
    "error".toList, "-i".toList, concat_input, "-c".toList, "copy".toList,
    "-bsf:a".toList, "aac_adtstoasc".toList, "-movflags".toList,
    "+faststart".toList, out_path]

/-- Embeds `loop_video_stream_copy_ts_fallback` (app.py lines 166-218),
Tier B: reject `loops < 1` before any side effect; otherwise remux the
input to a temporary transport stream and, if that succeeds, concatenate
`loops` references to it back into the target container. `td` is the
temporary directory created by the context manager. -/
def loop_video_stream_copy_ts_fallback (runner : Runner) (td : Str)
    (in_path out_path : Str) (loops : Int) : Except Str Unit × List Event :=
  if loops < 1 then (.error ("loops must be >= 1").toList, [])
  else
    let ts_path := td ++ ("/segment.ts").toList
    let cmd1 := ts_remux_cmd in_path ts_path
    let r1 := runner cmd1
    if r1.rc ≠ 0 then
      (.error (errOr (strip r1.err) ("ffmpeg TS remux step failed.").toList),
        [.run cmd1])
    else
      let concat_input :=
        ("concat:").toList ++ List.intercalate ("|").toList
          (List.replicate loops.toNat ts_path)
      let cmd2 := ts_concat_cmd concat_input out_path
      let r2 := runner cmd2
      if r2.rc ≠ 0 then
        (.error (errOr (strip r2.err) ("ffmpeg TS concat step failed.").toList),
          [.run cmd1, .run cmd2])
      else (.ok (), [.run cmd1, .run cmd2])

/-- The aggregated diagnostic raised when both tiers fail (app.py lines
229-233): a fixed preamble, the Tier A error text verbatim, a fixed
separator, and the Tier B error text verbatim. -/
def aggregateMsg (e1 e2 : Str) : Str :=
  ("Could not loop the video with stream-copy (no re-encode).\n\n").toList ++
    ("This usually happens if the container/codec parameters cannot be concatenated safely.\n\n").toList ++
    ("First attempt error:\n").toList ++ e1 ++
    ("\n\nFallback attempt error:\n").toList ++ e2

/-- Embeds `loop_video_no_reencode` (app.py lines 221-233): try Tier A;
only on its failure try Tier B once; if that also fails raise a single
RuntimeError aggregating both diagnostics. -/
def loop_video_no_reencode (runner : Runner) (resolve : Str → Str) (td : Str)
    (in_path out_path : Str) (loops : Int) : Except Str Unit × List Event :=
  match loop_video_stream_copy_concat_demuxer runner resolve in_path out_path loops with
  | (.ok u, ev) => (.ok u, ev)
  | (.error e1, ev1) =>
    match loop_video_stream_copy_ts_fallback runner td in_path out_path loops with
    | (.ok u, ev2) => (.ok u, ev1 ++ ev2)
    | (.error e2, ev2) => (.error (aggregateMsg e1 e2), ev1 ++ ev2)

/-- Embeds the `process` ("Create looped video") handler core (app.py lines
368-384): every button press first extracts the selected clip with
`extract_clip_stream_copy` and then loops it with `loop_video_no_reencode`;
there is no caching of the trimmed artifact between presses. -/
def process_action (runner : Runner) (resolve : Str → Str) (td : Str)
    (in_path clip_path out_path : Str) (range_start range_end : ℚ)
    (loops : Int) : Except Str Unit × List Event :=
  match extract_clip_stream_copy runner in_path clip_path range_start range_end with
  | (.error e, ev) => (.error e, ev)
  | (.ok _, ev1) =>
    match loop_video_no_reencode runner resolve td clip_path out_path loops with
    | (res, ev2) => (res, ev1 ++ ev2)

/-- Recognizes the trim invocation among external-tool calls: only
`extract_clip_stream_copy` passes a seek argument `-ss`. -/
def isTrimCmd (cmd : List Str) : Bool := ("-ss").toList ∈ cmd

/-- Number of trim invocations in an effect trace. -/
def trimRuns (evs : List Event) : Nat :=
  evs.countP (fun e => match e with | .run c => isTrimCmd c | _ => false)

/-- Lines of a text file whose content ends with a newline (the final empty
segment after the last newline is not a line). -/
def textLines (content : Str) : List Str := (splitOnChar '\n' content).dropLast

/-- A runner on which every invocation succeeds (used as a concrete
scenario). -/
def happyRunner : Runner := fun _ => ⟨0, [], []⟩

/-- A runner on which every invocation fails with diagnostic `boom` (used
as a concrete scenario). -/
def failRunner : Runner := fun _ => ⟨1, [], ("boom").toList⟩

/-! ### Structural lemmas about the string primitives -/

theorem splitOnChar_ne_nil (sep : Char) (l : Str) : splitOnChar sep l ≠ [] := by
  induction l with
  | nil => simp [splitOnChar]
  | cons c cs ih =>
    simp only [splitOnChar]
    split
    · simp
    · cases h : splitOnChar sep cs with
      | nil => simp
      | cons t ts => simp

theorem splitOnChar_of_not_mem {sep : Char} {l : Str} (h : sep ∉ l) :
    splitOnChar sep l = [l] := by
  induction l with
  | nil => rfl
  | cons c cs ih =>
    have h1 : ¬ c = sep := by rintro rfl; exact h (List.mem_cons_self _ _)
    have h2 : sep ∉ cs := fun hm => h (List.mem_cons_of_mem _ hm)
    simp only [splitOnChar, if_neg h1, ih h2]

theorem splitOnChar_append {sep : Char} {a : Str} (rest : Str) (h : sep ∉ a) :
    splitOnChar sep (a ++ sep :: rest) = a :: splitOnChar sep rest := by
  induction a with
  | nil => simp [splitOnChar]
  | cons c cs ih =>
    have h1 : ¬ c = sep := by rintro rfl; exact h (List.mem_cons_self _ _)
    have h2 : sep ∉ cs := fun hm => h (List.mem_cons_of_mem _ hm)
    simp only [List.cons_append, splitOnChar, if_neg h1, List.append_eq, ih h2]

theorem natVal_append (l : Str) (c : Char) :
    natVal (l ++ [c]) = natVal l * 10 + (c.toNat - 48) := by
  simp [natVal, List.foldl_append]

theorem natVal_cons_zero (l : Str) : natVal ('0' :: l) = natVal l := by
  have h : (('0').toNat - 48 : Nat) = 0 := by decide
  show List.foldl _ (0 * 10 + (('0').toNat - 48)) l = List.foldl _ 0 l
  rw [h]

theorem natVal_replicate_zero (k : Nat) (l : Str) :
    natVal (List.replicate k '0' ++ l) = natVal l := by
  induction k with
  | zero => rfl
  | succ k ih => rw [List.replicate_succ, List.cons_append, natVal_cons_zero, ih]

theorem natVal_padZero (w : Nat) (l : Str) : natVal (padZero w l) = natVal l :=
  natVal_replicate_zero _ _

theorem toNat_ofNat_digit {n : Nat} (h : n < 10) :
    (Char.ofNat (48 + n)).toNat = 48 + n := by
  interval_cases n <;> decide

theorem isDigitC_ofNat_digit {n : Nat} (h : n < 10) :
    isDigitC (Char.ofNat (48 + n)) = true := by
  interval_cases n <;> decide

theorem toNat_of_isDigitC {c : Char} (h : isDigitC c = true) :
    48 ≤ c.toNat ∧ c.toNat ≤ 57 := by
  simpa [isDigitC, Bool.and_eq_true, decide_eq_true_eq] using h

theorem isSpace_eq_false_of_isDigitC {c : Char} (h : isDigitC c = true) :
    isSpace c = false := by
  rcases toNat_of_isDigitC h with ⟨h1, h2⟩
  cases hc : isSpace c
  · rfl
  · exfalso
    simp only [isSpace, Bool.or_eq_true, decide_eq_true_eq] at hc
    rcases hc with ((((hc | hc) | hc) | hc) | hc) | hc <;>
      (subst hc; revert h1 h2; decide)

theorem ne_colon_of_isDigitC {c : Char} (h : isDigitC c = true) : c ≠ ':' := by
  rcases toNat_of_isDigitC h with ⟨h1, h2⟩
  rintro rfl; revert h1 h2; decide

theorem ne_dot_of_isDigitC {c : Char} (h : isDigitC c = true) : c ≠ '.' := by
  rcases toNat_of_isDigitC h with ⟨h1, h2⟩
  rintro rfl; revert h1 h2; decide

theorem ne_minus_of_isDigitC {c : Char} (h : isDigitC c = true) : c ≠ '-' := by
  rcases toNat_of_isDigitC h with ⟨h1, h2⟩
  rintro rfl; revert h1 h2; decide

theorem ne_plus_of_isDigitC {c : Char} (h : isDigitC c = true) : c ≠ '+' := by
  rcases toNat_of_isDigitC h with ⟨h1, h2⟩
  rintro rfl; revert h1 h2; decide

theorem natDigitsAux_spec :
    ∀ fuel n, n < fuel →
      natDigitsAux fuel n ≠ [] ∧ natVal (natDigitsAux fuel n) = n ∧
        ∀ c ∈ natDigitsAux fuel n, isDigitC c = true := by
  intro fuel
  induction fuel with
  | zero => intro n h; exact absurd h (Nat.not_lt_zero n)
  | succ fuel ih =>
    intro n h
    rw [natDigitsAux]
    split
    case isTrue h10 =>
      refine ⟨by simp, ?_, ?_⟩
      · have ht := toNat_ofNat_digit h10
        simp [natVal, ht]
      · intro c hc
        simp only [List.mem_singleton] at hc
        subst hc
        exact isDigitC_ofNat_digit h10
    case isFalse h10 =>
      have hlt : n / 10 < fuel := by
        have := Nat.div_lt_self (show 0 < n by omega) (show 1 < 10 by omega)
        omega
      obtain ⟨hne, hval, hmem⟩ := ih (n / 10) hlt
      have hm10 : n % 10 < 10 := Nat.mod_lt _ (by omega)
      refine ⟨by simp, ?_, ?_⟩
      · rw [natVal_append, hval, toNat_ofNat_digit hm10]
        omega
      · intro c hc
        rcases List.mem_append.1 hc with hc | hc
        · exact hmem c hc
        · simp only [List.mem_singleton] at hc
          subst hc
          exact isDigitC_ofNat_digit hm10

theorem natDigits_ne_nil (n : Nat) : natDigits n ≠ [] :=
  (natDigitsAux_spec (n + 1) n (Nat.lt_succ_self n)).1

theorem natVal_natDigits (n : Nat) : natVal (natDigits n) = n :=
  (natDigitsAux_spec (n + 1) n (Nat.lt_succ_self n)).2.1

theorem isDigitC_of_mem_natDigits {n : Nat} {c : Char} (h : c ∈ natDigits n) :
    isDigitC c = true :=
  (natDigitsAux_spec (n + 1) n (Nat.lt_succ_self n)).2.2 c h

theorem natDigitsAux_length :
    ∀ fuel n k, n < fuel → 0 < k → n < 10 ^ k →
      (natDigitsAux fuel n).length ≤ k := by
  intro fuel
  induction fuel with
  | zero => intro n k h _ _; exact absurd h (Nat.not_lt_zero n)
  | succ fuel ih =>
    intro n k h hk hnk
    rw [natDigitsAux]
    split
    · simpa using hk
    case isFalse h10 =>
      have h2 : 2 ≤ k := by
        rcases Nat.lt_or_ge k 2 with hlt | hge
        · interval_cases k
          · exact absurd hnk (by simpa using h10)
        · exact hge
      have hdiv : n / 10 < 10 ^ (k - 1) := by
        rw [Nat.div_lt_iff_lt_mul (by norm_num)]
        calc n < 10 ^ k := hnk
          _ = 10 ^ (k - 1) * 10 := by
              rw [← pow_succ]
              congr 1
              omega
      have hfl : n / 10 < fuel := by
        have := Nat.div_lt_self (show 0 < n by omega) (show 1 < 10 by omega)
        omega
      have hlen := ih (n / 10) (k - 1) hfl (by omega) hdiv
      simp only [List.length_append, List.length_singleton]
      omega

theorem natDigits_length_le {n k : Nat} (hk : 0 < k) (h : n < 10 ^ k) :
    (natDigits n).length ≤ k :=
  natDigitsAux_length (n + 1) n k (Nat.lt_succ_self n) hk h

theorem length_padZero_of_le {w : Nat} {l : Str} (h : l.length ≤ w) :
    (padZero w l).length = w := by
  simp only [padZero, List.length_append, List.length_replicate]
  omega

theorem mem_padZero {w : Nat} {l : Str} {c : Char} (hc : c ∈ padZero w l) :
    c = '0' ∨ c ∈ l := by
  rcases List.mem_append.1 hc with h | h
  · exact Or.inl (List.eq_of_mem_replicate h)
  · exact Or.inr h

theorem isDigitC_of_mem_padZero {w : Nat} {l : Str} {c : Char}
    (hl : ∀ d ∈ l, isDigitC d = true) (hc : c ∈ padZero w l) :
    isDigitC c = true := by
  rcases mem_padZero hc with h | h
  · subst h; decide
  · exact hl c h

theorem padZero_ne_nil {w : Nat} {l : Str} (h : l ≠ []) : padZero w l ≠ [] := by
  simp only [padZero]
  intro hcontra
  rcases List.append_eq_nil.1 hcontra with ⟨_, h2⟩
  exact h h2

theorem dropWhile_isSpace_of_all {l : Str} (h : ∀ c ∈ l, isSpace c = false) :
    l.dropWhile isSpace = l := by
  cases l with
  | nil => rfl
  | cons a l =>
    rw [List.dropWhile_cons, if_neg]
    simp [h a (List.mem_cons_self _ _)]

theorem strip_of_no_space {l : Str} (h : ∀ c ∈ l, isSpace c = false) :
    strip l = l := by
  have h2 : ∀ c ∈ l.reverse, isSpace c = false := fun c hc =>
    h c (List.mem_reverse.1 hc)
  unfold strip
  rw [dropWhile_isSpace_of_all h, dropWhile_isSpace_of_all h2,
    List.reverse_reverse]

theorem parseNat_of_digits {l : Str} (hne : l ≠ [])
    (hd : ∀ c ∈ l, isDigitC c = true) : parseNat l = some (natVal l) := by
  simp only [parseNat, if_neg hne]
  rw [if_pos (List.all_eq_true.2 hd)]

theorem parseInt_of_digits {l : Str} (hne : l ≠ [])
    (hd : ∀ c ∈ l, isDigitC c = true) :
    parseInt l = some ((natVal l : Nat) : Int) := by
  cases l with
  | nil => exact absurd rfl hne
  | cons c cs =>
    have hdc := hd c (List.mem_cons_self _ _)
    rw [parseInt, if_neg (ne_minus_of_isDigitC hdc),
      if_neg (ne_plus_of_isDigitC hdc), parseNat_of_digits hne hd]
    rfl

theorem parseUnsignedFloat_of_digit_parts {a b : Str}
    (ha : ∀ c ∈ a, isDigitC c = true) (hb : ∀ c ∈ b, isDigitC c = true)
    (hne : a ≠ []) :
    parseUnsignedFloat (a ++ '.' :: b)
      = some ((natVal a : ℚ) + (natVal b : ℚ) / 10 ^ b.length) := by
  have hna : '.' ∉ a := fun hm => ne_dot_of_isDigitC (ha _ hm) rfl
  have hnb : '.' ∉ b := fun hm => ne_dot_of_isDigitC (hb _ hm) rfl
  have hsplit : splitOnChar '.' (a ++ '.' :: b) = [a, b] := by
    rw [splitOnChar_append _ hna, splitOnChar_of_not_mem hnb]
  simp only [parseUnsignedFloat, hsplit]
  rw [if_neg, if_pos]
  · rw [Bool.and_eq_true, List.all_eq_true, List.all_eq_true]
    exact ⟨ha, hb⟩
  · simp [hne]

theorem parseFloat_of_digit_parts {a b : Str}
    (ha : ∀ c ∈ a, isDigitC c = true) (hb : ∀ c ∈ b, isDigitC c = true)
    (hne : a ≠ []) :
    parseFloat (a ++ '.' :: b)
      = some ((natVal a : ℚ) + (natVal b : ℚ) / 10 ^ b.length) := by
  cases a with
  | nil => exact absurd rfl hne
  | cons c cs =>
    have hdc := ha c (List.mem_cons_self _ _)
    rw [List.cons_append, parseFloat, if_neg (ne_minus_of_isDigitC hdc),
      if_neg (ne_plus_of_isDigitC hdc), ← List.cons_append,
      parseUnsignedFloat_of_digit_parts ha hb hne]

/-- Parsing the rendered `HH:MM:SS.mmm` string recovers the hour, minute and
(split) second fields exactly. -/
theorem timecode_to_sec_renderTimecode (h m ssInt ssFrac : Nat)
    (hf : ssFrac < 1000) :
    timecode_to_sec (renderTimecode h m ssInt ssFrac)
      = .ok ((h : ℚ) * 3600 + (m : ℚ) * 60
          + ((ssInt : ℚ) + (ssFrac : ℚ) / 1000)) := by
  have hd1 : ∀ c ∈ padZero 2 (natDigits h), isDigitC c = true := fun c hc =>
    isDigitC_of_mem_padZero (fun d hd => isDigitC_of_mem_natDigits hd) hc
  have hd2 : ∀ c ∈ padZero 2 (natDigits m), isDigitC c = true := fun c hc =>
    isDigitC_of_mem_padZero (fun d hd => isDigitC_of_mem_natDigits hd) hc
  have hd3 : ∀ c ∈ padZero 2 (natDigits ssInt), isDigitC c = true := fun c hc =>
    isDigitC_of_mem_padZero (fun d hd => isDigitC_of_mem_natDigits hd) hc
  have hd4 : ∀ c ∈ padZero 3 (natDigits ssFrac), isDigitC c = true :=
    fun c hc =>
      isDigitC_of_mem_padZero (fun d hd => isDigitC_of_mem_natDigits hd) hc
  have hne1 : padZero 2 (natDigits h) ≠ [] := padZero_ne_nil (natDigits_ne_nil h)
  have hne2 : padZero 2 (natDigits m) ≠ [] := padZero_ne_nil (natDigits_ne_nil m)
  have hne3 : padZero 2 (natDigits ssInt) ≠ [] :=
    padZero_ne_nil (natDigits_ne_nil ssInt)
  have hdseg3 : ∀ c ∈ padZero 2 (natDigits ssInt) ++ '.'
      :: padZero 3 (natDigits ssFrac), c ≠ ':' := by
    intro c hc
    rcases List.mem_append.1 hc with hc | hc
    · exact ne_colon_of_isDigitC (hd3 c hc)
    · rcases List.mem_cons.1 hc with hc | hc
      · subst hc; decide
      · exact ne_colon_of_isDigitC (hd4 c hc)
  have hnospace : ∀ c ∈ renderTimecode h m ssInt ssFrac, isSpace c = false := by
    intro c hc
    unfold renderTimecode at hc
    rcases List.mem_append.1 hc with hc | hc
    · exact isSpace_eq_false_of_isDigitC (hd1 c hc)
    · rcases List.mem_cons.1 hc with hc | hc
      · subst hc; decide
      · rcases List.mem_append.1 hc with hc | hc
        · exact isSpace_eq_false_of_isDigitC (hd2 c hc)
        · rcases List.mem_cons.1 hc with hc | hc
          · subst hc; decide
          · rcases List.mem_append.1 hc with hc | hc
            · exact isSpace_eq_false_of_isDigitC (hd3 c hc)
            · rcases List.mem_cons.1 hc with hc | hc
              · subst hc; decide
              · exact isSpace_eq_false_of_isDigitC (hd4 c hc)
  have hstrip : strip (renderTimecode h m ssInt ssFrac)
      = renderTimecode h m ssInt ssFrac := strip_of_no_space hnospace
  have hsplit : splitOnChar ':' (renderTimecode h m ssInt ssFrac)
      = [padZero 2 (natDigits h), padZero 2 (natDigits m),
          padZero 2 (natDigits ssInt) ++ '.' :: padZero 3 (natDigits ssFrac)] := by
    unfold renderTimecode
    rw [splitOnChar_append _
        (fun hm0 => ne_colon_of_isDigitC (hd1 _ hm0) rfl),
      splitOnChar_append _
        (fun hm0 => ne_colon_of_isDigitC (hd2 _ hm0) rfl),
      splitOnChar_of_not_mem (fun hm0 => hdseg3 _ hm0 rfl)]
  have hrne : renderTimecode h m ssInt ssFrac ≠ [] := by
    unfold renderTimecode
    intro hcontra
    rcases List.append_eq_nil.1 hcontra with ⟨h1, _⟩
    exact hne1 h1
  have hlen4 : (padZero 3 (natDigits ssFrac)).length = 3 :=
    length_padZero_of_le (natDigits_length_le (by norm_num)
      (by simpa using hf))
  rw [timecode_to_sec]
  simp only [hstrip, if_neg hrne, hsplit]
  rw [parseInt_of_digits hne1 hd1, parseInt_of_digits hne2 hd2,
    parseFloat_of_digit_parts hd3 hd4 hne3, natVal_padZero, natVal_padZero,
    natVal_padZero, natVal_padZero, natVal_natDigits, natVal_natDigits,
    natVal_natDigits, natVal_natDigits, hlen4]
  push_cast
  norm_num

/-! ### Arithmetic lemmas about the second/minute/hour decomposition -/

theorem fmod_eq_mul_fract (a b : ℚ) (hb : b ≠ 0) :
    fmod a b = b * Int.fract (a / b) := by
  unfold fmod Int.fract
  field_simp

theorem fmod_nonneg (a b : ℚ) (hb : 0 < b) : 0 ≤ fmod a b := by
  rw [fmod_eq_mul_fract a b hb.ne.symm]
  exact mul_nonneg hb.le (Int.fract_nonneg _)

theorem fmod_lt (a b : ℚ) (hb : 0 < b) : fmod a b < b := by
  rw [fmod_eq_mul_fract a b hb.ne.symm]
  calc b * Int.fract (a / b) < b * 1 :=
        (mul_lt_mul_left hb).2 (Int.fract_lt_one _)
    _ = b := mul_one b

theorem hour_minute_second_decomp (x : ℚ) :
    x = 3600 * (⌊x / 3600⌋ : ℚ) + 60 * (⌊fmod x 3600 / 60⌋ : ℚ) + fmod x 60 := by
  have h1 : fmod x 3600 / 60 = x / 60 - ((60 * ⌊x / 3600⌋ : ℤ) : ℚ) := by
    unfold fmod
    push_cast
    ring
  have h2 : ⌊fmod x 3600 / 60⌋ = ⌊x / 60⌋ - 60 * ⌊x / 3600⌋ := by
    rw [h1, Int.floor_sub_int]
  rw [h2]
  unfold fmod
  push_cast
  ring

theorem sec_to_timecode_eq_render (x : ℚ) (hx : 0 ≤ x) :
    sec_to_timecode x
      = renderTimecode (⌊x / 3600⌋).toNat (⌊fmod x 3600 / 60⌋).toNat
          ((round (fmod x 60 * 1000)).toNat / 1000)
          ((round (fmod x 60 * 1000)).toNat % 1000) := by
  rw [sec_to_timecode, if_neg (not_lt.2 hx)]

/-- Claim C5: formatting a nonnegative number of seconds with
`sec_to_timecode` and parsing the result back with `timecode_to_sec`
succeeds and recovers the input to within one millisecond (the seconds
field is rounded to three decimals, so the error is at most half a
millisecond). -/
theorem c5_format_parse_roundtrip (x : ℚ) (hx : 0 ≤ x) :
    ∃ y, timecode_to_sec (sec_to_timecode x) = .ok y ∧ |y - x| ≤ 1 / 1000 := by
  have hS0 : 0 ≤ fmod x 60 := fmod_nonneg x 60 (by norm_num)
  have hm0 : (0 : ℤ) ≤ round (fmod x 60 * 1000) := by
    rw [round_eq]
    exact Int.floor_nonneg.2 (by positivity)
  have hH0 : (0 : ℤ) ≤ ⌊x / 3600⌋ := Int.floor_nonneg.2 (by positivity)
  have hM0 : (0 : ℤ) ≤ ⌊fmod x 3600 / 60⌋ :=
    Int.floor_nonneg.2
      (div_nonneg (fmod_nonneg x 3600 (by norm_num)) (by norm_num))
  rw [sec_to_timecode_eq_render x hx,
    timecode_to_sec_renderTimecode _ _ _ _ (Nat.mod_lt _ (by norm_num))]
  refine ⟨_, rfl, ?_⟩
  have hHq : ((⌊x / 3600⌋.toNat : ℕ) : ℚ) = ((⌊x / 3600⌋ : ℤ) : ℚ) := by
    exact_mod_cast congrArg (fun z : ℤ => (z : ℚ)) (Int.toNat_of_nonneg hH0)
  have hMq : ((⌊fmod x 3600 / 60⌋.toNat : ℕ) : ℚ)
      = ((⌊fmod x 3600 / 60⌋ : ℤ) : ℚ) := by
    exact_mod_cast
      congrArg (fun z : ℤ => (z : ℚ)) (Int.toNat_of_nonneg hM0)
  have hkq : (((round (fmod x 60 * 1000)).toNat : ℕ) : ℚ)
      = ((round (fmod x 60 * 1000) : ℤ) : ℚ) := by
    exact_mod_cast congrArg (fun z : ℤ => (z : ℚ)) (Int.toNat_of_nonneg hm0)
  have hsplitk :
      (((round (fmod x 60 * 1000)).toNat / 1000 : ℕ) : ℚ)
        + (((round (fmod x 60 * 1000)).toNat % 1000 : ℕ) : ℚ) / 1000
      = (((round (fmod x 60 * 1000)).toNat : ℕ) : ℚ) / 1000 := by
    rw [eq_div_iff (show (1000 : ℚ) ≠ 0 by norm_num)]
    rw [add_mul, div_mul_cancel₀ _ (show (1000 : ℚ) ≠ 0 by norm_num)]
    exact_mod_cast
      (by omega :
        (round (fmod x 60 * 1000)).toNat / 1000 * 1000
          + (round (fmod x 60 * 1000)).toNat % 1000
        = (round (fmod x 60 * 1000)).toNat)
  rw [hsplitk, hkq, hHq, hMq]
  have hxd := hour_minute_second_decomp x
  have habs := abs_sub_round (fmod x 60 * 1000)
  rw [abs_sub_comm] at habs
  have hgoal :
      ((⌊x / 3600⌋ : ℤ) : ℚ) * 3600 + ((⌊fmod x 3600 / 60⌋ : ℤ) : ℚ) * 60
          + ((round (fmod x 60 * 1000) : ℤ) : ℚ) / 1000 - x
        = (((round (fmod x 60 * 1000) : ℤ) : ℚ) - fmod x 60 * 1000) / 1000 := by
    linear_combination -hxd
  rw [hgoal, abs_div]
  have h1000 : |(1000 : ℚ)| = 1000 := by norm_num
  rw [h1000]
  calc |((round (fmod x 60 * 1000) : ℤ) : ℚ) - fmod x 60 * 1000| / 1000
      ≤ (1 / 2) / 1000 := by gcongr
    _ ≤ 1 / 1000 := by norm_num

/-- Claim C5 witness: the round trip at the concrete input `3723.5`. -/
theorem c5_format_parse_roundtrip_witness :
    ∃ y, timecode_to_sec (sec_to_timecode (7447 / 2 : ℚ)) = .ok y
      ∧ |y - (7447 / 2 : ℚ)| ≤ 1 / 1000 :=
  c5_format_parse_roundtrip (7447 / 2) (by norm_num)

/-- Claim C9: after the session-state clamp/reset step every stored
selection satisfies `0 ≤ start < end ≤ duration`, for any positive probed
duration and any stale prior values. -/
theorem c9_clamp_reset_invariant (d rs re : ℚ) (hd : 0 < d) :
    0 ≤ (clamp_reset d rs re).1
      ∧ (clamp_reset d rs re).1 < (clamp_reset d rs re).2
      ∧ (clamp_reset d rs re).2 ≤ d := by
  simp only [clamp_reset]
  split
  case isTrue h => exact ⟨le_refl 0, hd, le_refl d⟩
  case isFalse h =>
    refine ⟨le_max_left 0 _, not_le.1 h, ?_⟩
    exact max_le hd.le (min_le_right re d)

/-- Claim C9 witness: the invariant at duration `10` with stale range
`(3, 5)`. -/
theorem c9_clamp_reset_invariant_witness :
    0 ≤ (clamp_reset 10 3 5).1
      ∧ (clamp_reset 10 3 5).1 < (clamp_reset 10 3 5).2
      ∧ (clamp_reset 10 3 5).2 ≤ 10 :=
  c9_clamp_reset_invariant 10 3 5 (by norm_num)

/-- Claim C10: the formatter rounds the seconds field to three decimals, so
`sec_to_timecode 59.9996` emits the out-of-canonical-range seconds field
`60.000` without carrying into the minutes (`"00:00:60.000"`); parsing that
string back yields `60`, which is within one millisecond of the input, and
the seconds-field value `60` indeed lies outside `[0, 60)`. -/
theorem c10_rounding_edge :
    sec_to_timecode (59.9996 : ℚ) = "00:00:60.000".toList
      ∧ timecode_to_sec ("00:00:60.000").toList = .ok 60
      ∧ parseFloat ("60.000").toList = some 60
      ∧ |(60 : ℚ) - 59.9996| ≤ 1 / 1000 ∧ ¬ ((60 : ℚ) < 60) := by
  refine ⟨?_, ?_, ?_, by rw [abs_le]; constructor <;> norm_num, by norm_num⟩
  · with_unfolding_all decide
  · have h1 : ("00:00:60.000").toList = renderTimecode 0 0 60 0 := by decide
    rw [h1, timecode_to_sec_renderTimecode 0 0 60 0 (by norm_num)]
    norm_num
  · with_unfolding_all decide

/-- Claim C6: `timecode_to_sec` accepts the `SS[.fff]`, `MM:SS[.fff]` and
`HH:MM:SS[.fff]` forms (split on `:`, rightmost segment fractional seconds,
remaining segments integers), rejects empty input, and rejects input whose
stripped text splits into more than three segments; in particular
`"01:02:03.500"` parses to `3723.5`, `"90"` parses to `90`, and `""` is
rejected. -/
theorem c6_parse_forms :
    timecode_to_sec ("01:02:03.500").toList = .ok (7447 / 2)
      ∧ timecode_to_sec ("90").toList = .ok 90
      ∧ timecode_to_sec ("").toList = .error ("Empty timecode").toList
      ∧ (∀ tc : Str, 4 ≤ (splitOnChar ':' (strip tc)).length →
          ∀ v : ℚ, timecode_to_sec tc ≠ .ok v)
      ∧ (∀ (tc p0 p1 p2 : Str) (hh mm : ℤ) (ss : ℚ),
          splitOnChar ':' (strip tc) = [p0, p1, p2] →
          parseInt p0 = some hh → parseInt p1 = some mm →
          parseFloat p2 = some ss →
          timecode_to_sec tc = .ok ((hh : ℚ) * 3600 + (mm : ℚ) * 60 + ss))
      ∧ (∀ (tc p0 : Str) (v : ℚ), splitOnChar ':' (strip tc) = [p0] →
          parseFloat p0 = some v → timecode_to_sec tc = .ok v)
      ∧ (∀ (tc p0 p1 : Str) (mm : ℤ) (ss : ℚ),
          splitOnChar ':' (strip tc) = [p0, p1] →
          parseInt p0 = some mm → parseFloat p1 = some ss →
          timecode_to_sec tc = .ok ((mm : ℚ) * 60 + ss)) := by
  refine ⟨?_, ?_, ?_, ?_, ?_, ?_, ?_⟩
  · have h1 : ("01:02:03.500").toList = renderTimecode 1 2 3 500 := by decide
    rw [h1, timecode_to_sec_renderTimecode 1 2 3 500 (by norm_num)]
    norm_num
  · with_unfolding_all decide
  · with_unfolding_all decide
  · intro tc hlen v
    rw [timecode_to_sec]
    split
    · simp
    · split
      case _ heq => rw [heq] at hlen; simp at hlen
      case _ heq => rw [heq] at hlen; simp at hlen
      case _ heq => rw [heq] at hlen; simp at hlen
      · simp
  · intro tc p0 p1 p2 hh mm ss hsplit h0 h1 h2
    have hne : strip tc ≠ [] := by
      intro h
      rw [h] at hsplit
      simp [splitOnChar] at hsplit
    rw [timecode_to_sec]
    simp only [if_neg hne, hsplit, h0, h1, h2]
  · intro tc p0 v hsplit hpf
    have hne : strip tc ≠ [] := by
      intro h
      rw [h] at hsplit
      simp only [splitOnChar, List.cons.injEq, and_true] at hsplit
      rw [← hsplit] at hpf
      simp [parseFloat] at hpf
    rw [timecode_to_sec]
    simp only [if_neg hne, hsplit, hpf]
  · intro tc p0 p1 mm ss hsplit h0 h1
    have hne : strip tc ≠ [] := by
      intro h
      rw [h] at hsplit
      simp [splitOnChar] at hsplit
    rw [timecode_to_sec]
    simp only [if_neg hne, hsplit, h0, h1]

/-- Claim C6 witness: a four-segment input is rejected. -/
theorem c6_parse_forms_witness :
    timecode_to_sec ("1:2:3:4").toList ≠ .ok 0 :=
  c6_parse_forms.2.2.2.1 ("1:2:3:4").toList (by decide) 0

/-- Claim C7: the duration probe ignores the tool exit status entirely,
returns `hh*3600 + mm*60 + ss` for the first `Duration: HH:MM:SS.ff` marker
found in the combined `stdout + "\n" + stderr` text, and fails with the
fixed diagnostic exactly when no marker is present. -/
theorem c7_probe_duration (rc : Int) (out err : Str) :
    get_duration_seconds_via_ffmpeg ⟨rc, out, err⟩
        = get_duration_seconds_via_ffmpeg ⟨0, out, err⟩
      ∧ (∀ (hh mm : Nat) (ss : ℚ),
          findDuration (out ++ '\n' :: err) = some (hh, mm, ss) →
          get_duration_seconds_via_ffmpeg ⟨rc, out, err⟩
            = .ok ((hh : ℚ) * 3600 + (mm : ℚ) * 60 + ss))
      ∧ (findDuration (out ++ '\n' :: err) = none →
          get_duration_seconds_via_ffmpeg ⟨rc, out, err⟩
            = .error ("Could not read video duration (ffmpeg did not report Duration).").toList) := by
  refine ⟨rfl, ?_, ?_⟩
  · intro hh mm ss h
    simp [get_duration_seconds_via_ffmpeg, h]
  · intro h
    simp [get_duration_seconds_via_ffmpeg, h]

/-- Claim C7 witness: a probe whose stderr reports
`Duration: 00:01:23.45` yields `83.45` seconds even with exit status 1. -/
theorem c7_probe_duration_witness :
    get_duration_seconds_via_ffmpeg ⟨1, [], ("Duration: 00:01:23.45,").toList⟩
      = .ok ((0 : ℚ) * 3600 + (1 : ℚ) * 60 + 2345 / 100) :=
  (c7_probe_duration 1 [] (("Duration: 00:01:23.45,").toList)).2.1 0 1
    (2345 / 100) (by with_unfolding_all decide)

/-- Claim C2 counterexample: with duration `10`, the timecode pair
`("-5", "15")` — a negative start and an end beyond the duration — is NOT
rejected: the handler clamps both values and accepts the range `(0, 10)`,
so validation neither rejects out-of-range timestamps nor leaves the range
unclamped. -/
theorem c2_counterexample :
    apply_tc_update 10 ("-5").toList ("15").toList = .ok (0, 10) := by
  with_unfolding_all decide

/-- Claim C2 (amended): the `apply_tc` handler first clamps each parsed
timestamp into `[0, duration]` and then rejects exactly when the clamped
end does not exceed the clamped start; consequently every accepted pair
satisfies `0 ≤ start < end ≤ duration`, but out-of-range timestamps are
clamped rather than rejected, and the only rejection is "End time must be
greater than start time.". -/
theorem c2_clamp_then_validate (d s e : ℚ) (sc ec : Str) (hd : 0 ≤ d)
    (hs : timecode_to_sec sc = .ok s) (he : timecode_to_sec ec = .ok e) :
    apply_tc_update d sc ec
        = (if max 0 (min e d) ≤ max 0 (min s d)
           then .error ("End time must be greater than start time.").toList
           else .ok (max 0 (min s d), max 0 (min e d)))
      ∧ ∀ s' e', apply_tc_update d sc ec = .ok (s', e') →
          0 ≤ s' ∧ s' < e' ∧ e' ≤ d := by
  have h1 : apply_tc_update d sc ec
      = (if max 0 (min e d) ≤ max 0 (min s d)
         then .error ("End time must be greater than start time.").toList
         else .ok (max 0 (min s d), max 0 (min e d))) := by
    simp only [apply_tc_update, hs, he]
  refine ⟨h1, ?_⟩
  intro s' e' hok
  rw [h1] at hok
  split at hok
  · simp at hok
  case isFalse h2 =>
    simp only [Except.ok.injEq, Prod.mk.injEq] at hok
    obtain ⟨hs', he'⟩ := hok
    subst hs'
    subst he'
    exact ⟨le_max_left 0 _, not_le.1 h2, max_le hd (min_le_right e d)⟩

/-- Claim C2 witness: the amended behaviour at duration `10` with
timecodes `"2"` and `"7"`. -/
theorem c2_clamp_then_validate_witness :
    (apply_tc_update 10 ("2").toList ("7").toList
        = (if max 0 (min (7 : ℚ) 10) ≤ max 0 (min (2 : ℚ) 10)
           then .error ("End time must be greater than start time.").toList
           else .ok (max 0 (min (2 : ℚ) 10), max 0 (min (7 : ℚ) 10))))
      ∧ ∀ s' e', apply_tc_update 10 ("2").toList ("7").toList = .ok (s', e') →
          0 ≤ s' ∧ s' < e' ∧ e' ≤ 10 :=
  c2_clamp_then_validate 10 2 7 ("2").toList ("7").toList (by norm_num)
    (by with_unfolding_all decide) (by with_unfolding_all decide)

/-- Claim C4: a loop request with `loops = 0` or negative is rejected by
each tier before any side effect — both tier functions return the
precondition error with an empty effect trace, and the combined operation
performs no external-tool invocation at all and fails. -/
theorem c4_loops_precondition (runner : Runner) (resolve : Str → Str)
    (td in_path out_path : Str) (loops : Int) (h : loops < 1) :
    loop_video_stream_copy_concat_demuxer runner resolve in_path out_path loops
        = (.error ("loops must be >= 1").toList, [])
      ∧ loop_video_stream_copy_ts_fallback runner td in_path out_path loops
        = (.error ("loops must be >= 1").toList, [])
      ∧ (loop_video_no_reencode runner resolve td in_path out_path loops).2 = []
      ∧ ∃ msg,
          (loop_video_no_reencode runner resolve td in_path out_path loops).1
            = .error msg := by
  have hA : loop_video_stream_copy_concat_demuxer runner resolve in_path
      out_path loops = (.error ("loops must be >= 1").toList, []) := by
    rw [loop_video_stream_copy_concat_demuxer, if_pos h]
  have hB : loop_video_stream_copy_ts_fallback runner td in_path
      out_path loops = (.error ("loops must be >= 1").toList, []) := by
    rw [loop_video_stream_copy_ts_fallback, if_pos h]
  have hC : loop_video_no_reencode runner resolve td in_path out_path loops
      = (.error (aggregateMsg ("loops must be >= 1").toList
          ("loops must be >= 1").toList), []) := by
    simp only [loop_video_no_reencode, hA, hB]
    rfl
  exact ⟨hA, hB, by rw [hC], ⟨_, by rw [hC]⟩⟩

/-- Claim C4 witness: a request with `loops = 0` invokes no external tool
and fails. -/
theorem c4_loops_precondition_witness :
    loop_video_stream_copy_concat_demuxer happyRunner id ("in.mp4").toList
        ("out.mp4").toList 0
        = (.error ("loops must be >= 1").toList, [])
      ∧ loop_video_stream_copy_ts_fallback happyRunner ("/t").toList
          ("in.mp4").toList ("out.mp4").toList 0
        = (.error ("loops must be >= 1").toList, [])
      ∧ (loop_video_no_reencode happyRunner id ("/t").toList ("in.mp4").toList
          ("out.mp4").toList 0).2 = []
      ∧ ∃ msg,
          (loop_video_no_reencode happyRunner id ("/t").toList
            ("in.mp4").toList ("out.mp4").toList 0).1 = .error msg :=
  c4_loops_precondition happyRunner id ("/t").toList ("in.mp4").toList
    ("out.mp4").toList 0 (by norm_num)

/-- Claim C3: for `loops ≥ 1`, Tier B runs exactly when Tier A fails (its
effect trace is appended once after Tier A's); when both tiers fail the
result is a single error aggregating both diagnostics, in which each
tier's text occurs verbatim (as a contiguous substring). -/
theorem c3_fallback_aggregation (runner : Runner) (resolve : Str → Str)
    (td in_path out_path : Str) (loops : Int) (_hl : 1 ≤ loops) :
    (∀ u ev,
        loop_video_stream_copy_concat_demuxer runner resolve in_path out_path
            loops = (.ok u, ev) →
        loop_video_no_reencode runner resolve td in_path out_path loops
          = (.ok u, ev))
      ∧ ∀ e1 ev1,
          loop_video_stream_copy_concat_demuxer runner resolve in_path
              out_path loops = (.error e1, ev1) →
          (loop_video_no_reencode runner resolve td in_path out_path loops).2
              = ev1 ++ (loop_video_stream_copy_ts_fallback runner td in_path
                  out_path loops).2
            ∧ ∀ e2 ev2,
                loop_video_stream_copy_ts_fallback runner td in_path out_path
                    loops = (.error e2, ev2) →
                loop_video_no_reencode runner resolve td in_path out_path loops
                    = (.error (aggregateMsg e1 e2), ev1 ++ ev2)
                  ∧ ∃ pre mid, aggregateMsg e1 e2 = pre ++ e1 ++ mid ++ e2 := by
  constructor
  · intro u ev hA
    simp only [loop_video_no_reencode, hA]
  · intro e1 ev1 hA
    constructor
    · rcases hB : loop_video_stream_copy_ts_fallback runner td in_path
        out_path loops with ⟨rB, evB⟩
      cases rB with
      | ok u => simp only [loop_video_no_reencode, hA, hB]
      | error e2 => simp only [loop_video_no_reencode, hA, hB]
    · intro e2 ev2 hB
      refine ⟨by simp only [loop_video_no_reencode, hA, hB], ?_⟩
      refine ⟨("Could not loop the video with stream-copy (no re-encode).\n\n").toList
          ++ ("This usually happens if the container/codec parameters cannot be concatenated safely.\n\n").toList
          ++ ("First attempt error:\n").toList,
        ("\n\nFallback attempt error:\n").toList, ?_⟩
      simp [aggregateMsg, List.append_assoc]

/-- Claim C3 witness: with a runner on which every invocation fails with
diagnostic `boom`, Tier B is attempted after Tier A and the aggregate error
carries both diagnostics. -/
theorem c3_fallback_aggregation_witness :
    loop_video_no_reencode failRunner id ("/t").toList ("in.mp4").toList
        ("out.mp4").toList 2
      = (.error (aggregateMsg ("boom").toList ("boom").toList),
          [Event.write (with_suffix_concat_txt ("out.mp4").toList)
              ((List.replicate (2 : Int).toNat
                (manifestLine (normSlashes (id ("in.mp4").toList)))).flatten),
            Event.run (concat_cmd (with_suffix_concat_txt ("out.mp4").toList)
              ("out.mp4").toList),
            Event.unlink (with_suffix_concat_txt ("out.mp4").toList)]
            ++ [Event.run (ts_remux_cmd ("in.mp4").toList
                (("/t").toList ++ ("/segment.ts").toList))]) :=
  (((c3_fallback_aggregation failRunner id ("/t").toList ("in.mp4").toList
      ("out.mp4").toList 2 (by norm_num)).2) ("boom").toList _
    (by decide)).2 ("boom").toList _ (by decide) |>.1

theorem manifestLine_eq_core (p : Str) :
    manifestLine p = manifestLineCore p ++ ['\n'] := by
  simp [manifestLine, manifestLineCore]

theorem newline_not_mem_manifestLineCore {p : Str} (h : '\n' ∉ p) :
    '\n' ∉ manifestLineCore p := by
  intro hm
  unfold manifestLineCore at hm
  rcases List.mem_append.1 hm with hc | hc
  · revert hc; decide
  · rcases List.mem_cons.1 hc with hc | hc
    · revert hc; decide
    · rcases List.mem_append.1 hc with hc | hc
      · exact h hc
      · revert hc; decide

theorem newline_not_mem_normSlashes {l : Str} (h : '\n' ∉ l) :
    '\n' ∉ normSlashes l := by
  intro hm
  rcases List.mem_map.1 hm with ⟨d, hd, hfd⟩
  by_cases hb : d = '\\'
  · subst hb
    rw [if_pos rfl] at hfd
    exact absurd hfd (by decide)
  · rw [if_neg hb] at hfd
    subst hfd
    exact h hd

theorem textLines_flatten_replicate (n : Nat) {core : Str}
    (hcore : '\n' ∉ core) :
    textLines (List.replicate n (core ++ ['\n'])).flatten
      = List.replicate n core := by
  induction n with
  | zero => simp [textLines, splitOnChar]
  | succ n ih =>
    rw [List.replicate_succ, List.flatten_cons, List.append_assoc,
      List.singleton_append, textLines, splitOnChar_append _ hcore,
      List.dropLast_cons_of_ne_nil (splitOnChar_ne_nil _ _), ← textLines, ih,
      List.replicate_succ]

/-- Claim C8: for `loops ≥ 1` (and an input path free of newlines), Tier A
writes a manifest whose lines are exactly `loops` repetitions of
`file '<resolved-path-with-forward-slashes>'`, invokes the tool once on it,
and unlinks the manifest after the invocation whatever the outcome (the
effect trace is write-run-unlink for every runner). -/
theorem c8_concat_manifest (runner : Runner) (resolve : Str → Str)
    (in_path out_path : Str) (loops : Int) (hl : 1 ≤ loops)
    (hpath : '\n' ∉ resolve in_path) :
    ∃ r, loop_video_stream_copy_concat_demuxer runner resolve in_path
          out_path loops
        = (r, [Event.write (with_suffix_concat_txt out_path)
                ((List.replicate loops.toNat
                  (manifestLine (normSlashes (resolve in_path)))).flatten),
              Event.run (concat_cmd (with_suffix_concat_txt out_path) out_path),
              Event.unlink (with_suffix_concat_txt out_path)])
      ∧ textLines ((List.replicate loops.toNat
            (manifestLine (normSlashes (resolve in_path)))).flatten)
          = List.replicate loops.toNat
              (manifestLineCore (normSlashes (resolve in_path))) := by
  have hnl : ¬ loops < 1 := not_lt.2 hl
  have hlines : textLines ((List.replicate loops.toNat
        (manifestLine (normSlashes (resolve in_path)))).flatten)
      = List.replicate loops.toNat
          (manifestLineCore (normSlashes (resolve in_path))) := by
    rw [manifestLine_eq_core]
    exact textLines_flatten_replicate _
      (newline_not_mem_manifestLineCore (newline_not_mem_normSlashes hpath))
  simp only [loop_video_stream_copy_concat_demuxer, if_neg hnl]
  split
  · exact ⟨_, rfl, hlines⟩
  · exact ⟨_, rfl, hlines⟩

/-- Claim C8 witness: the manifest scenario at `loops = 2` on a failing
runner (the manifest is still unlinked after the failed invocation). -/
theorem c8_concat_manifest_witness :
    ∃ r, loop_video_stream_copy_concat_demuxer failRunner id
          ("in.mp4").toList ("out.mp4").toList 2
        = (r, [Event.write (with_suffix_concat_txt ("out.mp4").toList)
                ((List.replicate (2 : Int).toNat
                  (manifestLine (normSlashes (id ("in.mp4").toList)))).flatten),
              Event.run (concat_cmd (with_suffix_concat_txt ("out.mp4").toList)
                ("out.mp4").toList),
              Event.unlink (with_suffix_concat_txt ("out.mp4").toList)])
      ∧ textLines ((List.replicate (2 : Int).toNat
            (manifestLine (normSlashes (id ("in.mp4").toList)))).flatten)
          = List.replicate (2 : Int).toNat
              (manifestLineCore (normSlashes (id ("in.mp4").toList))) :=
  c8_concat_manifest failRunner id ("in.mp4").toList ("out.mp4").toList 2
    (by norm_num) (by decide)

/-- Claim C1 (amended): the `process` handler has no trim cache — every
invocation with a nonempty selection begins by invoking the external tool
for the trim step, and when the trim succeeds the loop stage executes as
well; hence a second invocation with unchanged inputs re-runs the trim
invocation (and the loop stage) instead of hitting a cache. -/
theorem c1_no_trim_cache (runner : Runner) (resolve : Str → Str)
    (td in_path clip_path out_path : Str) (rs re : ℚ) (loops : Int)
    (h : rs < re) :
    (process_action runner resolve td in_path clip_path out_path rs re
        loops).2
      = Event.run (extract_cmd in_path clip_path rs (re - rs))
        :: (if (runner (extract_cmd in_path clip_path rs (re - rs))).rc ≠ 0
            then []
            else (loop_video_no_reencode runner resolve td clip_path out_path
                loops).2) := by
  have hnle : ¬ re ≤ rs := not_le.2 h
  by_cases hrc : (runner (extract_cmd in_path clip_path rs (re - rs))).rc ≠ 0
  · have hE : extract_clip_stream_copy runner in_path clip_path rs re
        = (.error (errOr (strip (runner (extract_cmd in_path clip_path rs
              (re - rs))).err) ("ffmpeg clip extraction failed.").toList),
            [.run (extract_cmd in_path clip_path rs (re - rs))]) := by
      rw [extract_clip_stream_copy, if_neg hnle]
      rw [if_pos hrc]
    simp only [process_action, hE, if_pos hrc]
  · have hE : extract_clip_stream_copy runner in_path clip_path rs re
        = (.ok (), [.run (extract_cmd in_path clip_path rs (re - rs))]) := by
      rw [extract_clip_stream_copy, if_neg hnle]
      rw [if_neg hrc]
    simp only [process_action, hE, if_neg hrc]
    rcases hL : loop_video_no_reencode runner resolve td clip_path out_path
      loops with ⟨res, ev2⟩
    simp [hL]

/-- Claim C1 witness: the amended behaviour on an all-success runner at the
selection `(0, 1)` with two loops. -/
theorem c1_no_trim_cache_witness :
    (process_action happyRunner id ("/t").toList ("in.mp4").toList
        ("clip.mp4").toList ("out.mp4").toList 0 1 2).2
      = Event.run (extract_cmd ("in.mp4").toList ("clip.mp4").toList 0 (1 - 0))
        :: (if (happyRunner (extract_cmd ("in.mp4").toList ("clip.mp4").toList
              0 (1 - 0))).rc ≠ 0
            then []
            else (loop_video_no_reencode happyRunner id ("/t").toList
                ("clip.mp4").toList ("out.mp4").toList 2).2) :=
  c1_no_trim_cache happyRunner id ("/t").toList ("in.mp4").toList
    ("clip.mp4").toList ("out.mp4").toList 0 1 2 (by norm_num)

/-- Claim C1 counterexample: two successive identical invocations of the
`process` handler (same file, range `(0, 1)`, two loops, all tool
invocations succeeding) perform two trim invocations in total — the second
press is not a cache hit on the trim stage, because the handler re-runs
`extract_clip_stream_copy` unconditionally. -/
theorem c1_counterexample :
    trimRuns ((process_action happyRunner id ("/t").toList ("in.mp4").toList
          ("clip.mp4").toList ("out.mp4").toList 0 1 2).2
        ++ (process_action happyRunner id ("/t").toList ("in.mp4").toList
          ("clip.mp4").toList ("out.mp4").toList 0 1 2).2)
      = 2 := by
  with_unfolding_all decide
